import Mathlib

/-!
Shallow embedding of the upload-and-process pipeline of the pdf-tools server
(`src/handlers/api.rs`, `src/pdf.rs`, `src/session.rs`, `src/util.rs`,
`src/constants.rs`) and proofs about the claims of its specification.

Modelling conventions:
* Bytes are `Nat` values (< 256 in real traffic; no claim depends on the bound).
* Rust `&str`/`String` values are Lean `String`s; where byte-level UTF-8
  indexing matters (`truncate_for_log`) strings are `List Char` paired with
  `Char.utf8Size`, which is exactly the UTF-8 byte width Rust iterates over.
* Multipart fields are materialised records: the streaming `field.chunk()`
  interface of the source becomes the list of chunks, and `field.text()`
  becomes the `textBody` component (in the source it is the UTF-8 decoding of
  the concatenated chunks; no claim relates the two views).
* Scratch-file I/O (`tokio::fs`) is modelled as succeeding: a scratch write
  stores the bytes, a read returns them.  The `Internal` error paths taken on
  host filesystem failure are environmental and outside every claim.
* External subprocesses (qpdf, ghostscript) and the serde_json layout parser
  are external collaborators; the pipeline is parameterised by an `Oracle`
  giving their results, and a trace records which subprocess steps ran.
-/

set_option autoImplicit false
set_option maxRecDepth 100000

set_option allowUnsafeReducibility true
attribute [local semireducible] Rat.mul Rat.add Rat.sub Rat.inv

namespace PdfTools

/-- `MAX_PDFS` from `src/constants.rs`. -/
def MAX_PDFS : Nat := 10

/-- `MAX_FILE_BYTES` from `src/constants.rs` (30 MiB). -/
def MAX_FILE_BYTES : Nat := 30 * 1024 * 1024

/-- Largest `usize` value, for `usize::saturating_add`. -/
def USIZE_MAX : Nat := 2 ^ 64 - 1

/-- The five magic bytes `%PDF-` checked by `looks_like_pdf` (`src/pdf.rs`). -/
def pdfMagic : List Nat := [37, 80, 68, 70, 45]

/-- Loop body of `write_multipart_field_to_file` (`src/pdf.rs` lines 21-47):
`file` is the scratch-file content so far, `written` the running byte count.
Each chunk first bumps `written` with `saturating_add`; if the new count
exceeds `MAX_FILE_BYTES` the function returns the count at once, without
writing that chunk (or any later one); otherwise the chunk is appended and
the loop continues.  Returns (file content, returned count). -/
def writeFieldGo : List Nat → Nat → List (List Nat) → List Nat × Nat
  | file, written, [] => (file, written)
  | file, written, c :: cs =>
    let w' := min (written + c.length) USIZE_MAX
    if MAX_FILE_BYTES < w' then (file, w')
    else writeFieldGo (file ++ c) w' cs

/-- `write_multipart_field_to_file` (`src/pdf.rs`): stream the field's chunks
to a fresh scratch file, returning (file content, returned byte count). -/
def write_multipart_field_to_file (chunks : List (List Nat)) : List Nat × Nat :=
  writeFieldGo [] 0 chunks

/-- `looks_like_pdf` (`src/pdf.rs` lines 49-59): read up to 5 bytes from the
file; accept iff 5 bytes were read and they are `%PDF-`. -/
def looks_like_pdf (bytes : List Nat) : Bool :=
  decide (5 ≤ bytes.length) && (bytes.take 5 == pdfMagic)

/-- Numeric value of an ASCII digit character. -/
def digitVal (c : Char) : Nat := c.toNat - 48

/-- Digits-only core of Rust's `str::parse::<u8>`: a non-empty all-ASCII-digit
string whose value fits in `u8`. -/
def parseU8core (ds : List Char) : Option Nat :=
  if ds = [] then none
  else if ds.all Char.isDigit then
    let n := ds.foldl (fun a c => a * 10 + digitVal c) 0
    if n ≤ 255 then some n else none
  else none

/-- Rust `char::is_whitespace`: the Unicode `White_Space` code points. -/
def rustIsWhitespace (c : Char) : Bool :=
  c.toNat ∈ [0x09, 0x0A, 0x0B, 0x0C, 0x0D, 0x20, 0x85, 0xA0, 0x1680,
    0x2000, 0x2001, 0x2002, 0x2003, 0x2004, 0x2005, 0x2006, 0x2007, 0x2008,
    0x2009, 0x200A, 0x2028, 0x2029, 0x202F, 0x205F, 0x3000]

/-- Rust `str::trim`: drop whitespace from both ends. -/
def trimChars (s : List Char) : List Char :=
  ((s.dropWhile rustIsWhitespace).reverse.dropWhile rustIsWhitespace).reverse

/-- `value.trim().parse::<u8>()` as used for the `quality` field
(`src/handlers/api.rs` lines 130-133): trim, allow one leading `+`,
then digits with value ≤ 255. -/
def parseU8 (s : String) : Option Nat :=
  match trimChars s.toList with
  | '+' :: ds => parseU8core ds
  | ds => parseU8core ds

/-- ASCII lowercase of one character, as in Rust `to_ascii_lowercase`. -/
def asciiLower (c : Char) : Char :=
  if 'A' ≤ c ∧ c ≤ 'Z' then Char.ofNat (c.toNat + 32) else c

/-- `parse_bool_loose` (`src/util.rs`): trim, ASCII-lowercase, accept exactly
`1`, `true`, `on`, `yes`. -/
def parse_bool_loose (s : String) : Bool :=
  let v := (trimChars s.toList).map asciiLower
  v == "1".toList || v == "true".toList || v == "on".toList || v == "yes".toList

/-- A materialised multipart field: name, declared content type, file name,
body chunks (file view) and body text (`field.text()` view). -/
structure MPField where
  name : String
  contentType : Option String := none
  fileName : Option String := none
  chunks : List (List Nat) := []
  textBody : String := ""
deriving DecidableEq

/-- The processed content type of a field (`src/handlers/api.rs` lines
154-157): take the declared type up to the first `;` (`split(';').next()`),
trim it, defaulting to the empty string when no content type was declared. -/
def fieldCT (f : MPField) : String :=
  match f.contentType with
  | none => ""
  | some m => (trimChars (m.toList.takeWhile (fun c => c != ';'))).asString

/-- `field.file_name().unwrap_or("file.pdf")`. -/
def fieldFName (f : MPField) : String := f.fileName.getD "file.pdf"

/-- `AppError` (`src/error.rs`). -/
inductive AppError where
  | Unauthorized
  | BadRequest (msg : String)
  | Internal (msg : String)
deriving DecidableEq

/-- Decidable equality of `Except` results, for concrete evaluations. -/
instance {ε α : Type} [DecidableEq ε] [DecidableEq α] : DecidableEq (Except ε α) := fun a b =>
  match a, b with
  | .ok x, .ok y =>
    if h : x = y then isTrue (by rw [h]) else isFalse (fun hh => by cases hh; exact h rfl)
  | .ok _, .error _ => isFalse (fun hh => by cases hh)
  | .error _, .ok _ => isFalse (fun hh => by cases hh)
  | .error x, .error y =>
    if h : x = y then isTrue (by rw [h]) else isFalse (fun hh => by cases hh; exact h rfl)

/-- The mutable state of the `merge` handler's field loop
(`src/handlers/api.rs` lines 112-117): quality (default 80), linearize flag
(default false), the last `layout` text seen, the legacy upload contents in
order, and the id-keyed uploads (insertion-ordered model of the `HashMap`). -/
structure MergeState where
  quality : Nat := 80
  linearize : Bool := false
  layoutJson : Option String := none
  legacy : List (List Nat) := []
  byId : List (String × List Nat) := []
deriving DecidableEq

/-- The initial state of the `merge` field loop. -/
def initMergeState : MergeState := {}

/-- Drop an expected leading character sequence, as in Rust `str::strip_prefix`. -/
def dropPre : List Char → List Char → Option (List Char)
  | [], cs => some cs
  | _ :: _, [] => none
  | p :: ps, c :: cs => if c = p then dropPre ps cs else none

/-- `name.strip_prefix("file_")` from the `merge` field dispatch. -/
def dropFilePre (name : String) : Option String :=
  (dropPre "file_".toList name.toList).map List.asString

/-- Ingestion of one accepted-by-name file field of `merge`
(`src/handlers/api.rs` lines 179-211): the per-style count guards, the
scratch write with the size cap, the magic-bytes check, and the final
push/insert (with the duplicate-id error). -/
def ingestFile (s : MergeState) (f : MPField) (docId : String) (isLegacy : Bool) :
    Except AppError MergeState :=
  if isLegacy ∧ MAX_PDFS ≤ s.legacy.length then
    .error (.BadRequest ("Too many PDFs (max " ++ toString MAX_PDFS ++ ")"))
  else if MAX_PDFS ≤ s.byId.length ∧ ¬ isLegacy then
    .error (.BadRequest ("Too many PDFs (max " ++ toString MAX_PDFS ++ ")"))
  else if MAX_FILE_BYTES < (write_multipart_field_to_file f.chunks).2 then
    .error (.BadRequest
      (fieldFName f ++ " is too large (max " ++ toString (MAX_FILE_BYTES / 1024 / 1024) ++ " MB)"))
  else if ¬ looks_like_pdf (write_multipart_field_to_file f.chunks).1 then
    .error (.BadRequest (fieldFName f ++ " does not look like a PDF"))
  else if isLegacy then
    .ok { s with legacy := s.legacy ++ [(write_multipart_field_to_file f.chunks).1] }
  else
    match s.byId.lookup docId with
    | some _ => .error (.BadRequest ("Duplicate document id: " ++ docId))
    | none => .ok { s with byId := s.byId ++ [(docId, (write_multipart_field_to_file f.chunks).1)] }

/-- One iteration of the `merge` field loop (`src/handlers/api.rs` lines
119-212): the three control fields first, then the content-type gate, then
the field-name dispatch (`file_<id>`, `files`, or the unexpected-field
error), then `ingestFile`. -/
def mergeStep (s : MergeState) (f : MPField) : Except AppError MergeState :=
  if f.name = "quality" then
    match parseU8 f.textBody with
    | some v => .ok { s with quality := v }
    | none => .error (.BadRequest "Invalid quality")
  else if f.name = "linearize" then .ok { s with linearize := parse_bool_loose f.textBody }
  else if f.name = "layout" then .ok { s with layoutJson := some f.textBody }
  else if fieldCT f ≠ "" ∧ fieldCT f ≠ "application/pdf" then
    .error (.BadRequest
      ("Only PDF files are allowed (got " ++ fieldCT f ++ " for " ++ fieldFName f ++ ")"))
  else
    match dropFilePre f.name with
    | some rest => ingestFile s f rest false
    | none =>
      if f.name = "files" then
        ingestFile s f ("legacy_" ++ toString s.legacy.length) true
      else .error (.BadRequest ("Unexpected form field: " ++ f.name))

/-- The whole `merge` field loop over a list of fields. -/
def mergeLoop (fields : List MPField) (s : MergeState) : Except AppError MergeState :=
  match fields with
  | [] => .ok s
  | f :: fs =>
    match mergeStep s f with
    | .error e => .error e
    | .ok s' => mergeLoop fs s'

/-- `MergePageRef` (`src/pdf.rs`): one (document id, 1-based page) reference
of a layout plan. -/
structure MergePageRef where
  doc : String
  page : Nat
deriving DecidableEq

/-- The layout validation loop of `merge` (`src/handlers/api.rs` lines
242-255): for each reference in order, its document id must be a key of
`pagesByDoc`, and its page must be neither 0 nor above that document's page
count; the first violation aborts with the corresponding message. -/
def validateLayout (pagesByDoc : List (String × Nat)) : List MergePageRef → Except AppError Unit
  | [] => .ok ()
  | r :: rest =>
    match pagesByDoc.lookup r.doc with
    | none => .error (.BadRequest ("Layout references unknown doc id: " ++ r.doc))
    | some mx =>
      if r.page = 0 ∨ mx < r.page then
        .error (.BadRequest ("Invalid page " ++ toString r.page ++ " for doc " ++ r.doc ++
          " (max " ++ toString mx ++ ")"))
      else validateLayout pagesByDoc rest

/-- One external subprocess step of the pipeline. -/
inductive Subproc where
  | qpdfCount
  | qpdfAssemble
  | gsCompress
  | qpdfLinearize
deriving DecidableEq

/-- Results of the external collaborators: the serde_json layout parser, and
the qpdf/ghostscript subprocesses, as pure result functions (the pipeline is
proved for every oracle). -/
structure Oracle where
  parseLayout : String → Option (List MergePageRef)
  npages : List Nat → Nat
  assembleRes : List (List Nat × Nat) → List Nat
  gsRes : List (List Nat) → Nat → List Nat
  linRes : List Nat → List Nat

/-- The post-loop part of the `merge` handler (`src/handlers/api.rs` lines
214-271): empty-upload check, quality range check, then either the layout
branch (parse, non-empty check, addressable-documents check, page counting,
validation, assembly, recompression, optional linearization) or the legacy
branch (recompression, optional linearization).  The second component is the
trace of subprocess invocations, in order, also on the error paths. -/
def mergePipeline (O : Oracle) (fields : List MPField) :
    Except AppError (List Nat) × List Subproc :=
  match mergeLoop fields initMergeState with
  | .error e => (.error e, [])
  | .ok s =>
    if s.legacy = [] ∧ s.byId = [] then (.error (.BadRequest "No PDF files uploaded"), [])
    else if ¬ (10 ≤ s.quality ∧ s.quality ≤ 100) then
      (.error (.BadRequest "Quality must be between 10 and 100"), [])
    else
      match s.layoutJson with
      | some lj =>
        match O.parseLayout lj with
        | none => (.error (.BadRequest "Invalid layout"), [])
        | some layout =>
          if layout = [] then (.error (.BadRequest "Layout is empty"), [])
          else if s.byId = [] then
            (.error (.BadRequest "Layout provided but no file_* parts found"), [])
          else
            let pagesByDoc := s.byId.map (fun p => (p.1, O.npages p.2))
            let tr0 := s.byId.map (fun _ => Subproc.qpdfCount)
            match validateLayout pagesByDoc layout with
            | .error e => (.error e, tr0)
            | .ok _ =>
              let assembled :=
                O.assembleRes (layout.map (fun r => ((s.byId.lookup r.doc).getD [], r.page)))
              let bytes := O.gsRes [assembled] s.quality
              if s.linearize then
                (.ok (O.linRes bytes),
                  tr0 ++ [Subproc.qpdfAssemble, Subproc.gsCompress, Subproc.qpdfLinearize])
              else (.ok bytes, tr0 ++ [Subproc.qpdfAssemble, Subproc.gsCompress])
      | none =>
        let bytes := O.gsRes s.legacy s.quality
        if s.linearize then
          (.ok (O.linRes bytes), [Subproc.gsCompress, Subproc.qpdfLinearize])
        else (.ok bytes, [Subproc.gsCompress])

/-- The field loop of the `npages` handler (`src/handlers/api.rs` lines
46-85): fields whose name is not `file` are skipped with `continue`; the
first `file` field goes through the content-type gate, the capped scratch
write and the magic check, and then ends the loop (`break`). -/
def npagesLoop : List MPField → Except AppError (Option (List Nat × String))
  | [] => .ok none
  | f :: fs =>
    if f.name ≠ "file" then npagesLoop fs
    else
      let ct := fieldCT f
      let fname := fieldFName f
      if ct ≠ "" ∧ ct ≠ "application/pdf" then
        .error (.BadRequest ("Only PDF files are allowed (got " ++ ct ++ " for " ++ fname ++ ")"))
      else
        let wr := write_multipart_field_to_file f.chunks
        if MAX_FILE_BYTES < wr.2 then
          .error (.BadRequest
            (fname ++ " is too large (max " ++ toString (MAX_FILE_BYTES / 1024 / 1024) ++ " MB)"))
        else if ¬ looks_like_pdf wr.1 then
          .error (.BadRequest (fname ++ " does not look like a PDF"))
        else .ok (some (wr.1, fname))

/-- The `npages` handler (`src/handlers/api.rs` lines 30-98) after
authentication: run the field loop, fail with `Missing file` when no `file`
field was accepted, otherwise count pages with qpdf. -/
def npagesHandler (O : Oracle) (fields : List MPField) : Except AppError Nat × List Subproc :=
  match npagesLoop fields with
  | .error e => (.error e, [])
  | .ok none => (.error (.BadRequest "Missing file"), [])
  | .ok (some (bytes, _)) => (.ok (O.npages bytes), [Subproc.qpdfCount])

/-- Rust `token.split('.')` on a character list: splitting on `.` always
yields at least one (possibly empty) segment, and one extra segment per dot. -/
def splitDot : List Char → List (List Char)
  | [] => [[]]
  | c :: cs =>
    if c = '.' then [] :: splitDot cs
    else
      match splitDot cs with
      | [] => [[c]]
      | s :: ss => (c :: s) :: ss

/-- The external primitives used by `SessionSigner` (`src/session.rs`):
serde_json payload serialization, base64url (no padding) encoding, and
HMAC-SHA256 (the signer is proved for primitives satisfying the crates'
round-trip contracts, stated as hypotheses where needed). -/
structure SigPrims where
  jsonEnc : String × Int → List Nat
  jsonDec : List Nat → Option (String × Int)
  b64enc : List Nat → List Char
  b64dec : List Char → Option (List Nat)
  hmacTag : List Nat → List Char → List Nat

/-- `SessionSigner::issue` (`src/session.rs` lines 26-42): payload is
`(username, now + ttl)` (times in unix seconds), serialized, base64url
encoded, HMAC-signed over the encoded payload, and concatenated as
`v1.<payload_b64>.<sig_b64>`. -/
def SessionSigner.issue (P : SigPrims) (key : List Nat) (ttl : Int) (username : String)
    (now : Int) : List Char :=
  let pb := P.b64enc (P.jsonEnc (username, now + ttl))
  let sb := P.b64enc (P.hmacTag key pb)
  "v1.".toList ++ pb ++ '.' :: sb

/-- `SessionSigner::verify` (`src/session.rs` lines 44-69): split on `.`,
require exactly three segments with version `v1`, base64-decode the
signature, recompute the HMAC over the payload segment and compare, decode
and parse the payload, and reject when `exp_unix <= now`. -/
def SessionSigner.verify (P : SigPrims) (key : List Nat) (token : List Char) (now : Int) :
    Option (String × Int) :=
  match splitDot token with
  | [version, pb, sb] =>
    if version = "v1".toList then
      match P.b64dec sb with
      | none => none
      | some sig =>
        if P.hmacTag key pb = sig then
          match P.b64dec pb with
          | none => none
          | some pj =>
            match P.jsonDec pj with
            | none => none
            | some payload => if payload.2 ≤ now then none else some payload
        else none
    else none
  | _ => none

/-- UTF-8 byte length of a character list, `str::len` of the Rust string. -/
def utf8Len (s : List Char) : Nat := (s.map Char.utf8Size).sum

/-- The characters kept by the over-512-bytes branch of `truncate_for_log`
(`src/pdf.rs` lines 214-228).  The source computes `end`, the byte index of
the last character starting at byte ≤ 512, and returns `s[..end]`: a
character starting at byte `off` is kept exactly when the following
character exists and starts at byte `off + size ≤ 512` (character start
offsets are strictly increasing, so the kept characters are this prefix). -/
def truncKeep : Nat → List Char → List Char
  | _, [] => []
  | off, c :: cs =>
    if cs ≠ [] ∧ off + c.utf8Size ≤ 512 then c :: truncKeep (off + c.utf8Size) cs else []

/-- `truncate_for_log` (`src/pdf.rs` lines 214-228): strings of UTF-8 byte
length ≤ 512 pass through; longer strings are cut at a character boundary to
at most 512 bytes and suffixed with `…`. -/
def truncate_for_log (s : List Char) : List Char :=
  if utf8Len s ≤ 512 then s else truncKeep 0 s ++ ['…']

/-- The non-zero-exit error message of the qpdf invocations (`src/pdf.rs`
lines 70-73, 111-114, 141-144): `format!("qpdf failed: {stderr}")`. -/
def qpdfFailMsg (stderr : List Char) : List Char := "qpdf failed: ".toList ++ stderr

/-- The non-zero-exit error message of the ghostscript invocation
(`src/pdf.rs` lines 184-187): `format!("ghostscript failed: {stderr}")`. -/
def gsFailMsg (stderr : List Char) : List Char := "ghostscript failed: ".toList ++ stderr

/-- The page-count output-parse failure message (`src/pdf.rs` lines 79-86),
the one place `truncate_for_log` is applied. -/
def qpdfParseFailMsg (stdout stderr : List Char) : List Char :=
  "Failed to parse qpdf output (stdout=".toList ++ truncate_for_log stdout ++
    ", stderr=".toList ++ truncate_for_log stderr ++ [')']

/-- Round a rational to the nearest integer, ties to even (the IEEE-754
rounding of a real to a representable significand). -/
def roundTiesEven (x : ℚ) : ℤ :=
  let f := ⌊x⌋
  if x - f < 1 / 2 then f
  else if 1 / 2 < x - f then f + 1
  else if 2 ∣ f then f else f + 1

/-- Fuel-based `⌊log₂ n⌋` (0 for `n ≤ 1`); structural recursion on the fuel
so that it reduces inside the kernel. -/
def log2Go : Nat → Nat → Nat
  | 0, _ => 0
  | fuel + 1, n => if n ≤ 1 then 0 else log2Go fuel (n / 2) + 1

/-- `⌊log₂ n⌋` for `n ≥ 1`. -/
def log2Nat (n : Nat) : Nat := log2Go n n

/-- `2 ^ e` in `ℚ` for an integer exponent, by `Nat` powers. -/
def exp2 (e : ℤ) : ℚ :=
  if 0 ≤ e then ((2 ^ e.toNat : ℕ) : ℚ) else 1 / ((2 ^ (-e).toNat : ℕ) : ℚ)

/-- `⌊log₂ x⌋` of a positive rational: the bit-length difference of
numerator and denominator locates the value within one, and one comparison
settles it. -/
def floorLog2 (x : ℚ) : ℤ :=
  let e0 : ℤ := (log2Nat x.num.natAbs : ℤ) - (log2Nat x.den : ℤ)
  if exp2 e0 ≤ x then e0 else e0 - 1

/-- Round a positive rational to the nearest IEEE-754 double (binary64):
scale by the ulp `2 ^ (exponent - 52)` and round the 53-bit significand to
nearest, ties to even.  Valid for the nonnegative normal-range values this
development applies it to (nonpositive inputs, which the modelled code never
produces except exact 0, pass through). -/
def toDouble (x : ℚ) : ℚ :=
  if x ≤ 0 then x
  else
    let e : ℤ := floorLog2 x - 52
    (roundTiesEven (x / exp2 e) : ℚ) * exp2 e

/-- `f64::round`: round to nearest integer, ties away from zero. -/
def roundHalfAway (x : ℚ) : ℤ := if x < 0 then -⌊-x + 1 / 2⌋ else ⌊x + 1 / 2⌋

/-- `quality.clamp(10, 100)` from `quality_to_gs_params`. -/
def clampQ (q : Nat) : Nat := min (max q 10) 100

/-- Body of `quality_to_gs_params` after the clamp, on the clamped value. -/
def gsParamsAt (c : Nat) : ℤ × ℤ :=
  let q : ℚ := (c : ℕ)
  let t := toDouble ((q - 10) / 90)
  (roundHalfAway (toDouble (72 + toDouble (t * 228))),
    roundHalfAway (toDouble (20 + toDouble (t * 75))))

/-- `quality_to_gs_params` (`src/pdf.rs` lines 119-125), with every f64
operation modelled as the exact rational result rounded to the nearest
double (`q - 10.0`, `300.0 - 72.0` and `95.0 - 20.0` are exact in f64, so
they appear without rounding): clamp the quality, normalize
`t = (q - 10) / 90`, and round `72 + t * 228` and `20 + t * 75`. -/
def quality_to_gs_params (quality : Nat) : ℤ × ℤ := gsParamsAt (clampQ quality)

/-- Body of the specification mapping after the clamp, in exact rational
arithmetic. -/
def gsSpecAt (c : Nat) : ℤ × ℤ :=
  let q : ℚ := (c : ℕ)
  let t : ℚ := (q - 10) / 90
  (roundHalfAway (72 + t * 228), roundHalfAway (20 + t * 75))

/-- The mapping of the specification, stated in exact real arithmetic:
`t = (quality − 10) / 90` after clamping to `[10, 100]`, target resolution
`round(72 + t·(300−72))`, target image quality `round(20 + t·(95−20))`. -/
def quality_to_gs_params_spec (quality : Nat) : ℤ × ℤ := gsSpecAt (clampQ quality)

/-- A `files` upload whose body is a minimal well-formed PDF prefix. -/
def okFilesField : MPField := { name := "files", chunks := [pdfMagic] }

/-- A `file_<id>` upload whose body is a minimal well-formed PDF prefix. -/
def okIdField (id : String) : MPField := { name := "file_" ++ id, chunks := [pdfMagic] }

/-- A `quality` control field with the given text. -/
def qualityField (v : String) : MPField := { name := "quality", textBody := v }

/-- A field with a name no endpoint expects. -/
def bogusField : MPField := { name := "bogus" }

/-- A `file` upload for the `npages` endpoint. -/
def okNpagesField : MPField := { name := "file", chunks := [pdfMagic] }

/-- An upload declared as `application/pdf` whose bytes do not start with
the PDF magic marker. -/
def badMagicField : MPField :=
  { name := "files", contentType := some "application/pdf", chunks := [[1, 2, 3, 4, 5]] }

/-- A `files` upload whose single chunk is one byte over the per-file cap. -/
def bigField : MPField := { name := "files", chunks := [List.replicate (MAX_FILE_BYTES + 1) 37] }

/-- A concrete oracle, used to exercise the pipeline on closed inputs. -/
def trivOracle : Oracle where
  parseLayout := fun _ => none
  npages := fun _ => 1
  assembleRes := fun _ => []
  gsRes := fun _ _ => [0]
  linRes := fun b => b

/-- Concrete signer primitives (used to exercise the signer on closed
inputs): they satisfy the round-trip contracts at the instantiated point. -/
def trivPrims : SigPrims where
  jsonEnc := fun _ => [0]
  jsonDec := fun _ => some ("admin", 86400)
  b64enc := fun _ => ['A']
  b64dec := fun _ => some [0]
  hmacTag := fun _ _ => [0]

end PdfTools

namespace PdfTools

/-! ### Supporting lemmas -/

theorem clampQ_le_100 (q : Nat) : clampQ q ≤ 100 := by
  unfold clampQ; omega

theorem clampQ_of_100_le (q : Nat) (h : 100 ≤ q) : clampQ q = 100 := by
  unfold clampQ; omega

set_option maxHeartbeats 4000000 in
theorem gsParamsAt_eq_spec : ∀ c : Nat, c < 101 → gsParamsAt c = gsSpecAt c := by decide

set_option maxHeartbeats 4000000 in
theorem gs_step_mono :
    ∀ n : Nat, n < 100 →
      (quality_to_gs_params n).1 ≤ (quality_to_gs_params (n + 1)).1 ∧
      (quality_to_gs_params n).2 ≤ (quality_to_gs_params (n + 1)).2 := by decide

theorem gs_succ_le (n : Nat) :
    (quality_to_gs_params n).1 ≤ (quality_to_gs_params (n + 1)).1 ∧
    (quality_to_gs_params n).2 ≤ (quality_to_gs_params (n + 1)).2 := by
  by_cases h : n < 100
  · exact gs_step_mono n h
  · have h1 : clampQ n = 100 := clampQ_of_100_le n (by omega)
    have h2 : clampQ (n + 1) = 100 := clampQ_of_100_le (n + 1) (by omega)
    unfold quality_to_gs_params
    rw [h1, h2]
    exact ⟨le_refl _, le_refl _⟩

theorem errNeOk {ε α : Type} {P : Prop} {e : ε} {a : α}
    (h : Except.error e = Except.ok a) : P := nomatch h

theorem okNeErr {ε α : Type} {P : Prop} {e : ε} {a : α}
    (h : Except.ok a = Except.error e) : P := nomatch h

theorem max_file_bytes_lt_usize : MAX_FILE_BYTES < USIZE_MAX := by decide

/-- When the total field size stays within the cap, every chunk is written
and the returned count is the total size. -/
theorem writeFieldGo_small : ∀ (cs : List (List Nat)) (file : List Nat) (w : Nat),
    w + (cs.map List.length).sum ≤ MAX_FILE_BYTES →
    writeFieldGo file w cs = (file ++ cs.flatten, w + (cs.map List.length).sum) := by
  intro cs
  induction cs with
  | nil => intro file w _; simp [writeFieldGo]
  | cons c cs ih =>
    intro file w hle
    simp only [List.map_cons, List.sum_cons] at hle
    have hmin : min (w + c.length) USIZE_MAX = w + c.length := by
      have := max_file_bytes_lt_usize; omega
    simp only [writeFieldGo, hmin]
    rw [if_neg (by omega)]
    rw [ih (file ++ c) (w + c.length) (by omega)]
    simp only [List.flatten_cons, List.map_cons, List.sum_cons, List.append_assoc,
      Prod.mk.injEq]
    exact ⟨trivial, by omega⟩

theorem write_small (chunks : List (List Nat))
    (h : (chunks.map List.length).sum ≤ MAX_FILE_BYTES) :
    write_multipart_field_to_file chunks = (chunks.flatten, (chunks.map List.length).sum) := by
  unfold write_multipart_field_to_file
  have := writeFieldGo_small chunks [] 0 (by omega)
  simpa using this

/-- The scratch-file content never exceeds the cap: a chunk is only written
when the running count including it stays within the cap. -/
theorem writeFieldGo_capped : ∀ (cs : List (List Nat)) (file : List Nat) (w : Nat),
    file.length = w → w ≤ MAX_FILE_BYTES →
    ((writeFieldGo file w cs).1).length ≤ MAX_FILE_BYTES := by
  intro cs
  induction cs with
  | nil => intro file w hfw hw; simpa [writeFieldGo, hfw] using hw
  | cons c cs ih =>
    intro file w hfw hw
    simp only [writeFieldGo]
    split
    · simpa [hfw] using hw
    · next hnot =>
      have hmin : min (w + c.length) USIZE_MAX = w + c.length := by
        have := max_file_bytes_lt_usize; omega
      exact ih (file ++ c) _ (by simp [hfw, hmin]) (by omega)

/-- Once the running count crosses the cap, the crossing chunk and all later
chunks are discarded and the function returns the over-cap count. -/
theorem writeFieldGo_over : ∀ (pre : List (List Nat)) (c : List Nat) (post : List (List Nat))
    (file : List Nat) (w : Nat),
    w + (pre.map List.length).sum ≤ MAX_FILE_BYTES →
    MAX_FILE_BYTES < min (w + (pre.map List.length).sum + c.length) USIZE_MAX →
    writeFieldGo file w (pre ++ c :: post) =
      (file ++ pre.flatten, min (w + (pre.map List.length).sum + c.length) USIZE_MAX) := by
  intro pre
  induction pre with
  | nil =>
    intro c post file w _ hover
    simp only [List.map_nil, List.sum_nil, Nat.add_zero] at hover ⊢
    simp only [List.nil_append, writeFieldGo, List.flatten_nil, List.append_nil]
    rw [if_pos hover]
  | cons p pre ih =>
    intro c post file w hle hover
    simp only [List.map_cons, List.sum_cons] at hle hover
    have hmin : min (w + p.length) USIZE_MAX = w + p.length := by
      have := max_file_bytes_lt_usize; omega
    simp only [List.cons_append, writeFieldGo, hmin, List.append_eq]
    rw [if_neg (by omega)]
    rw [ih c post (file ++ p) (w + p.length) (by omega) (by
      have heq : w + p.length + (pre.map List.length).sum
          = w + (p.length + (pre.map List.length).sum) := by omega
      rw [heq]; exact hover)]
    simp only [List.flatten_cons, List.append_assoc, List.map_cons, List.sum_cons,
      Prod.mk.injEq]
    exact ⟨trivial, by omega⟩

/-! ### Claim C8 -/

/-- Claim C8: for every quality value, the two tool parameters are obtained
by clamping to [10,100] and rounding `72 + t·228` and `20 + t·75` with
`t = (quality−10)/90` (the f64 computation agrees with the exact rational
formula at every input); quality 10 maps to (72, 20), quality 100 to
(300, 95), and both outputs are monotone in the quality. -/
theorem merge_quality_params_match_spec :
    (∀ q : Nat, quality_to_gs_params q = quality_to_gs_params_spec q) ∧
    quality_to_gs_params 10 = (72, 20) ∧
    quality_to_gs_params 100 = (300, 95) ∧
    Monotone (fun q : Nat => (quality_to_gs_params q).1) ∧
    Monotone (fun q : Nat => (quality_to_gs_params q).2) := by
  refine ⟨?_, by decide, by decide, ?_, ?_⟩
  · intro q
    unfold quality_to_gs_params quality_to_gs_params_spec
    exact gsParamsAt_eq_spec (clampQ q) (by have := clampQ_le_100 q; omega)
  · exact monotone_nat_of_le_succ (fun n => (gs_succ_le n).1)
  · exact monotone_nat_of_le_succ (fun n => (gs_succ_le n).2)

/-! ### Characterisation of one merge-loop step -/

theorem ingestFile_ok_shape {s : MergeState} {f : MPField} {d : String} {l : Bool}
    {s' : MergeState} (h : ingestFile s f d l = .ok s') :
    (l = true ∧ s.legacy.length < MAX_PDFS ∧
      s' = { s with legacy := s.legacy ++ [(write_multipart_field_to_file f.chunks).1] }) ∨
    (l = false ∧ s.byId.length < MAX_PDFS ∧
      s' = { s with byId := s.byId ++ [(d, (write_multipart_field_to_file f.chunks).1)] }) := by
  unfold ingestFile at h
  split_ifs at h with hc1 hc2 hc3 hc4 hc5
  · left
    refine ⟨hc5, ?_, by injection h with h; rw [← h]⟩
    have hlt : ¬ (MAX_PDFS ≤ s.legacy.length) := fun hge => hc1 ⟨hc5, hge⟩
    omega
  · split at h
    · exact errNeOk h
    · right
      simp only [Bool.not_eq_true] at hc5
      refine ⟨hc5, ?_, by injection h with h; rw [← h]⟩
      have hlt : ¬ (MAX_PDFS ≤ s.byId.length) := fun hge => hc2 ⟨hge, by simp [hc5]⟩
      omega

theorem ingestFile_preserves_controls {s : MergeState} {f : MPField} {d : String} {l : Bool}
    {s' : MergeState} (h : ingestFile s f d l = .ok s') :
    s'.quality = s.quality ∧ s'.linearize = s.linearize ∧ s'.layoutJson = s.layoutJson := by
  rcases ingestFile_ok_shape h with ⟨_, _, rfl⟩ | ⟨_, _, rfl⟩ <;> exact ⟨rfl, rfl, rfl⟩

theorem mergeStep_quality {s : MergeState} {f : MPField} (hn : f.name = "quality") :
    mergeStep s f = match parseU8 f.textBody with
      | some v => .ok { s with quality := v }
      | none => .error (.BadRequest "Invalid quality") := by
  unfold mergeStep
  rw [if_pos hn]

theorem mergeStep_linearize {s : MergeState} {f : MPField} (hn : f.name = "linearize") :
    mergeStep s f = .ok { s with linearize := parse_bool_loose f.textBody } := by
  unfold mergeStep
  rw [if_neg (by rw [hn]; decide), if_pos hn]

theorem mergeStep_layout {s : MergeState} {f : MPField} (hn : f.name = "layout") :
    mergeStep s f = .ok { s with layoutJson := some f.textBody } := by
  unfold mergeStep
  rw [if_neg (by rw [hn]; decide), if_neg (by rw [hn]; decide), if_pos hn]

theorem mergeStep_other_shape {s : MergeState} {f : MPField} {s' : MergeState}
    (h1 : f.name ≠ "quality") (h2 : f.name ≠ "linearize") (h3 : f.name ≠ "layout")
    (h : mergeStep s f = .ok s') :
    ∃ d l, ingestFile s f d l = .ok s' := by
  unfold mergeStep at h
  rw [if_neg h1, if_neg h2, if_neg h3] at h
  split_ifs at h with hct hf
  all_goals split at h
  all_goals try exact errNeOk h
  all_goals first
    | (next rest heq => exact ⟨rest, false, h⟩)
    | exact ⟨_, true, h⟩

theorem mergeStep_preserves_controls {s : MergeState} {f : MPField} {s' : MergeState}
    (h1 : f.name ≠ "quality") (h2 : f.name ≠ "linearize") (h3 : f.name ≠ "layout")
    (h : mergeStep s f = .ok s') :
    s'.quality = s.quality ∧ s'.linearize = s.linearize ∧ s'.layoutJson = s.layoutJson := by
  obtain ⟨d, l, hi⟩ := mergeStep_other_shape h1 h2 h3 h
  exact ingestFile_preserves_controls hi

theorem mergeStep_counts {s : MergeState} {f : MPField} {s' : MergeState}
    (h : mergeStep s f = .ok s')
    (hl : s.legacy.length ≤ MAX_PDFS) (hb : s.byId.length ≤ MAX_PDFS) :
    s'.legacy.length ≤ MAX_PDFS ∧ s'.byId.length ≤ MAX_PDFS := by
  by_cases h1 : f.name = "quality"
  · rw [mergeStep_quality h1] at h
    split at h
    · injection h with h; rw [← h]; exact ⟨hl, hb⟩
    · exact errNeOk h
  by_cases h2 : f.name = "linearize"
  · rw [mergeStep_linearize h2] at h
    injection h with h; rw [← h]; exact ⟨hl, hb⟩
  by_cases h3 : f.name = "layout"
  · rw [mergeStep_layout h3] at h
    injection h with h; rw [← h]; exact ⟨hl, hb⟩
  obtain ⟨d, l, hi⟩ := mergeStep_other_shape h1 h2 h3 h
  rcases ingestFile_ok_shape hi with ⟨_, hlt, rfl⟩ | ⟨_, hlt, rfl⟩ <;>
    simp only [List.length_append, List.length_cons, List.length_nil] <;> omega

theorem mergeLoop_counts : ∀ (fields : List MPField) (s s' : MergeState),
    mergeLoop fields s = .ok s' →
    s.legacy.length ≤ MAX_PDFS → s.byId.length ≤ MAX_PDFS →
    s'.legacy.length ≤ MAX_PDFS ∧ s'.byId.length ≤ MAX_PDFS := by
  intro fields
  induction fields with
  | nil =>
    intro s s' h hl hb
    injection h with h
    rw [← h]; exact ⟨hl, hb⟩
  | cons f fs ih =>
    intro s s' h hl hb
    unfold mergeLoop at h
    split at h
    · exact errNeOk h
    · next s1 hstep =>
      obtain ⟨hl1, hb1⟩ := mergeStep_counts hstep hl hb
      exact ih s1 s' h hl1 hb1

/-! ### Claim C1 -/

/-- Counterexample to claim C1 as stated: a merge request carrying 10 legacy
`files` uploads and one id-keyed `file_a` upload is accepted with 11
documents in total, so the 10-document maximum is not enforced across the
two styles combined. -/
theorem merge_combined_cap_counterexample :
    mergeLoop (List.replicate 10 okFilesField ++ [okIdField "a"]) initMergeState =
      .ok { legacy := List.replicate 10 pdfMagic, byId := [("a", pdfMagic)] } ∧
    (List.replicate 10 pdfMagic).length + [("a", pdfMagic)].length = 11 := by
  constructor
  · decide
  · decide

/-- Claim C1 (amended): the accepted-document caps are enforced per style:
at most 10 legacy `files` documents and at most 10 id-keyed `file_<id>`
documents are ever accepted (so at most 20 combined, not 10); at the
boundary, exactly 10 legacy uploads succeed and an 11th is rejected with the
`Too many PDFs` client error. -/
theorem merge_count_caps :
    (∀ (fields : List MPField) (s : MergeState),
      mergeLoop fields initMergeState = .ok s →
      s.legacy.length ≤ MAX_PDFS ∧ s.byId.length ≤ MAX_PDFS) ∧
    mergeLoop (List.replicate 10 okFilesField) initMergeState =
      .ok { legacy := List.replicate 10 pdfMagic } ∧
    mergeLoop (List.replicate 11 okFilesField) initMergeState =
      .error (.BadRequest "Too many PDFs (max 10)") := by
  refine ⟨?_, by decide, by decide⟩
  intro fields s h
  exact mergeLoop_counts fields initMergeState s h (by decide) (by decide)

/-- Witness for the amended claim C1 at a concrete input. -/
theorem merge_count_caps_witness :
    ({ legacy := [pdfMagic] } : MergeState).legacy.length ≤ MAX_PDFS ∧
    ({ legacy := [pdfMagic] } : MergeState).byId.length ≤ MAX_PDFS :=
  merge_count_caps.1 [okFilesField] { legacy := [pdfMagic] } (by decide)

/-! ### Claim C9 -/

/-- On a successful merge-loop run, every `quality` occurrence parsed, and
the final control values are those of the last occurrence of each control
field (with the loop's starting values as defaults). -/
theorem mergeLoop_controls : ∀ (fields : List MPField) (s0 s : MergeState),
    mergeLoop fields s0 = .ok s →
    (∀ t ∈ (fields.filter (fun f => f.name == "quality")).map MPField.textBody,
      (parseU8 t).isSome) ∧
    s.quality = (((fields.filter (fun f => f.name == "quality")).map MPField.textBody).filterMap
      parseU8).getLastD s0.quality ∧
    s.linearize = (((fields.filter (fun f => f.name == "linearize")).map MPField.textBody).map
      parse_bool_loose).getLastD s0.linearize ∧
    s.layoutJson = (((fields.filter (fun f => f.name == "layout")).map MPField.textBody).map
      some).getLastD s0.layoutJson := by
  intro fields
  induction fields with
  | nil =>
    intro s0 s h
    injection h with h
    subst h
    simp
  | cons f fs ih =>
    intro s0 s h
    unfold mergeLoop at h
    split at h
    · exact errNeOk h
    · next s1 hstep =>
      by_cases h1 : f.name = "quality"
      · have hb1 : (f.name == "quality") = true := by simp [h1]
        have hb2 : (f.name == "linearize") = false := by rw [h1]; decide
        have hb3 : (f.name == "layout") = false := by rw [h1]; decide
        rw [mergeStep_quality h1] at hstep
        cases hv : parseU8 f.textBody with
        | none => rw [hv] at hstep; exact errNeOk hstep
        | some v =>
          rw [hv] at hstep
          injection hstep with hstep
          obtain ⟨ha, hq, hl, hj⟩ := ih s1 s h
          rw [← hstep] at hq hl hj
          refine ⟨?_, ?_, ?_, ?_⟩
          · intro t ht
            simp only [List.filter_cons, hb1, if_true, List.map_cons, List.mem_cons] at ht
            rcases ht with rfl | ht
            · simp [hv]
            · exact ha t ht
          · simp only [List.filter_cons, hb1, if_true, List.map_cons, List.filterMap_cons,
              hv, List.getLastD_cons]
            simpa using hq
          · simpa [List.filter_cons, hb2] using hl
          · simpa [List.filter_cons, hb3] using hj
      · by_cases h2 : f.name = "linearize"
        · have hb1 : (f.name == "quality") = false := by rw [h2]; decide
          have hb2 : (f.name == "linearize") = true := by simp [h2]
          have hb3 : (f.name == "layout") = false := by rw [h2]; decide
          rw [mergeStep_linearize h2] at hstep
          injection hstep with hstep
          obtain ⟨ha, hq, hl, hj⟩ := ih s1 s h
          rw [← hstep] at hq hl hj
          refine ⟨?_, ?_, ?_, ?_⟩
          · intro t ht
            refine ha t ?_
            simpa [List.filter_cons, hb1] using ht
          · simpa [List.filter_cons, hb1] using hq
          · simp only [List.filter_cons, hb2, if_true, List.map_cons, List.getLastD_cons]
            simpa using hl
          · simpa [List.filter_cons, hb3] using hj
        · by_cases h3 : f.name = "layout"
          · have hb1 : (f.name == "quality") = false := by rw [h3]; decide
            have hb2 : (f.name == "linearize") = false := by rw [h3]; decide
            have hb3 : (f.name == "layout") = true := by simp [h3]
            rw [mergeStep_layout h3] at hstep
            injection hstep with hstep
            obtain ⟨ha, hq, hl, hj⟩ := ih s1 s h
            rw [← hstep] at hq hl hj
            refine ⟨?_, ?_, ?_, ?_⟩
            · intro t ht
              refine ha t ?_
              simpa [List.filter_cons, hb1] using ht
            · simpa [List.filter_cons, hb1] using hq
            · simpa [List.filter_cons, hb2] using hl
            · simp only [List.filter_cons, hb3, if_true, List.map_cons, List.getLastD_cons]
              simpa using hj
          · have hb1 : (f.name == "quality") = false := beq_eq_false_iff_ne.mpr h1
            have hb2 : (f.name == "linearize") = false := beq_eq_false_iff_ne.mpr h2
            have hb3 : (f.name == "layout") = false := beq_eq_false_iff_ne.mpr h3
            obtain ⟨hq0, hl0, hj0⟩ := mergeStep_preserves_controls h1 h2 h3 hstep
            obtain ⟨ha, hq, hl, hj⟩ := ih s1 s h
            refine ⟨?_, ?_, ?_, ?_⟩
            · intro t ht
              refine ha t ?_
              simpa [List.filter_cons, hb1] using ht
            · rw [hq, hq0]
              simp [List.filter_cons, hb1]
            · rw [hl, hl0]
              simp [List.filter_cons, hb2]
            · rw [hj, hj0]
              simp [List.filter_cons, hb3]

/-- Counterexample to claim C9 as stated: in a request where `quality`
occurs twice, the earlier occurrence is not ignored — an unparseable first
occurrence rejects the whole request even though the last occurrence is
valid, while the request with only the last occurrence succeeds. -/
theorem merge_last_control_wins_counterexample :
    mergeLoop [qualityField "abc", qualityField "80", okFilesField] initMergeState =
      .error (.BadRequest "Invalid quality") ∧
    mergeLoop [qualityField "80", okFilesField] initMergeState =
      .ok { quality := 80, legacy := [pdfMagic] } :=
  ⟨by decide, by decide⟩

/-- Claim C9 (amended): when a merge request runs to a successful ingest, the
control values used are those of the last occurrence of each of `quality`,
`linearize` and `layout`; earlier occurrences of `linearize` and `layout`
have no effect, but every occurrence of `quality` must itself parse as an
integer — an unparseable earlier occurrence rejects the request. -/
theorem merge_last_control_wins :
    ∀ (fields : List MPField) (s : MergeState),
      mergeLoop fields initMergeState = .ok s →
      (∀ t ∈ (fields.filter (fun f => f.name == "quality")).map MPField.textBody,
        (parseU8 t).isSome) ∧
      s.quality = (((fields.filter (fun f => f.name == "quality")).map
        MPField.textBody).filterMap parseU8).getLastD 80 ∧
      s.linearize = (((fields.filter (fun f => f.name == "linearize")).map
        MPField.textBody).map parse_bool_loose).getLastD false ∧
      s.layoutJson = (((fields.filter (fun f => f.name == "layout")).map
        MPField.textBody).map some).getLastD none :=
  fun fields s h => mergeLoop_controls fields initMergeState s h

/-- Witness for the amended claim C9 at a concrete input: with `quality`
sent twice (30 then 90), the accepted state carries the last value. -/
theorem merge_last_control_wins_witness :
    ({ quality := 90, legacy := [pdfMagic] } : MergeState).quality =
      ((([qualityField "30", qualityField "90", okFilesField].filter
        (fun f => f.name == "quality")).map MPField.textBody).filterMap parseU8).getLastD 80 :=
  (merge_last_control_wins [qualityField "30", qualityField "90", okFilesField]
    { quality := 90, legacy := [pdfMagic] } (by decide)).2.1

/-! ### Error taxonomy of the merge loop -/

theorem ingestFile_error_badrequest {s : MergeState} {f : MPField} {d : String} {l : Bool}
    {e : AppError} (h : ingestFile s f d l = .error e) : ∃ m, e = .BadRequest m := by
  unfold ingestFile at h
  split_ifs at h
  all_goals try (injection h with h; exact ⟨_, h.symm⟩)
  split at h
  · injection h with h; exact ⟨_, h.symm⟩
  · exact okNeErr h

theorem mergeStep_error_badrequest {s : MergeState} {f : MPField} {e : AppError}
    (h : mergeStep s f = .error e) : ∃ m, e = .BadRequest m := by
  unfold mergeStep at h
  split_ifs at h
  all_goals try (injection h with h; exact ⟨_, h.symm⟩)
  all_goals split at h
  all_goals try (injection h with h; exact ⟨_, h.symm⟩)
  all_goals try exact okNeErr h
  all_goals exact ingestFile_error_badrequest h

theorem mergeLoop_error_badrequest : ∀ (fields : List MPField) (s : MergeState) (e : AppError),
    mergeLoop fields s = .error e → ∃ m, e = .BadRequest m := by
  intro fields
  induction fields with
  | nil => intro s e h; exact okNeErr h
  | cons f fs ih =>
    intro s e h
    unfold mergeLoop at h
    split at h
    · next e' heq =>
      injection h with h
      rw [← h]
      exact mergeStep_error_badrequest heq
    · exact ih _ _ h

/-- If some field of the list makes the step fail at every state, the whole
loop fails. -/
theorem mergeLoop_stuck : ∀ (pre : List MPField) (f : MPField) (post : List MPField)
    (s0 : MergeState), (∀ s, ∃ e, mergeStep s f = .error e) →
    ∃ e, mergeLoop (pre ++ f :: post) s0 = .error e := by
  intro pre
  induction pre with
  | nil =>
    intro f post s0 hf
    obtain ⟨e, he⟩ := hf s0
    refine ⟨e, ?_⟩
    simp only [List.nil_append]
    unfold mergeLoop
    rw [he]
  | cons g pre ih =>
    intro f post s0 hf
    simp only [List.cons_append]
    unfold mergeLoop
    cases hg : mergeStep s0 g with
    | error e => exact ⟨e, rfl⟩
    | ok s1 => exact ih f post s1 hf

theorem mergeLoop_stuck_badrequest (pre : List MPField) (f : MPField) (post : List MPField)
    (s0 : MergeState) (hf : ∀ s, ∃ e, mergeStep s f = .error e) :
    ∃ m, mergeLoop (pre ++ f :: post) s0 = .error (.BadRequest m) := by
  obtain ⟨e, he⟩ := mergeLoop_stuck pre f post s0 hf
  obtain ⟨m, rfl⟩ := mergeLoop_error_badrequest _ _ _ he
  exact ⟨m, he⟩

/-! ### Claim C5 -/

/-- A merge field with a name outside the expected set fails the step: with
the content-type error when the declared type is not PDF, and with the
unexpected-field error otherwise. -/
theorem mergeStep_unexpected_name {s : MergeState} {f : MPField}
    (h1 : f.name ≠ "quality") (h2 : f.name ≠ "linearize") (h3 : f.name ≠ "layout")
    (h4 : dropFilePre f.name = none) (h5 : f.name ≠ "files") :
    mergeStep s f = if fieldCT f ≠ "" ∧ fieldCT f ≠ "application/pdf" then
        .error (.BadRequest
          ("Only PDF files are allowed (got " ++ fieldCT f ++ " for " ++ fieldFName f ++ ")"))
      else .error (.BadRequest ("Unexpected form field: " ++ f.name)) := by
  unfold mergeStep
  rw [if_neg h1, if_neg h2, if_neg h3]
  by_cases hct : fieldCT f ≠ "" ∧ fieldCT f ≠ "application/pdf"
  · rw [if_pos hct, if_pos hct]
  · rw [if_neg hct, if_neg hct]
    simp only [h4]
    rw [if_neg h5]

/-- Counterexample to claim C5 as stated for the page-count endpoint: a
request with an unexpected `bogus` field followed by a valid `file` field
succeeds — the unexpected field is silently ignored, not rejected. -/
theorem npages_unexpected_field_counterexample :
    npagesHandler trivOracle [bogusField, okNpagesField] = (.ok 1, [Subproc.qpdfCount]) := by
  decide

/-- Claim C5 (amended): for the merge endpoint a field whose name is not
quality/linearize/layout/files/file_&lt;id&gt; always fails the request with a
client error (the unexpected-field error when its declared content type
passes the PDF check, the content-type error otherwise); for the page-count
endpoint, fields other than `file` are silently skipped. -/
theorem unexpected_field_handling :
    (∀ (s : MergeState) (f : MPField),
      f.name ≠ "quality" → f.name ≠ "linearize" → f.name ≠ "layout" →
      dropFilePre f.name = none → f.name ≠ "files" →
      (fieldCT f = "" ∨ fieldCT f = "application/pdf") →
      mergeStep s f = .error (.BadRequest ("Unexpected form field: " ++ f.name))) ∧
    (∀ (pre post : List MPField) (f : MPField) (s0 : MergeState),
      f.name ≠ "quality" → f.name ≠ "linearize" → f.name ≠ "layout" →
      dropFilePre f.name = none → f.name ≠ "files" →
      ∃ m, mergeLoop (pre ++ f :: post) s0 = .error (.BadRequest m)) ∧
    (∀ (fs : List MPField) (f : MPField), f.name ≠ "file" →
      npagesLoop (f :: fs) = npagesLoop fs) := by
  refine ⟨?_, ?_, ?_⟩
  · intro s f h1 h2 h3 h4 h5 hct
    rw [mergeStep_unexpected_name h1 h2 h3 h4 h5]
    rw [if_neg (by rcases hct with hct | hct <;> simp [hct])]
  · intro pre post f s0 h1 h2 h3 h4 h5
    refine mergeLoop_stuck_badrequest pre f post s0 (fun s => ?_)
    rw [mergeStep_unexpected_name h1 h2 h3 h4 h5]
    by_cases hct : fieldCT f ≠ "" ∧ fieldCT f ≠ "application/pdf"
    · rw [if_pos hct]; exact ⟨_, rfl⟩
    · rw [if_neg hct]; exact ⟨_, rfl⟩
  · intro fs f h
    conv_lhs => unfold npagesLoop
    rw [if_pos h]

/-- Witness for the amended claim C5 at a concrete input. -/
theorem unexpected_field_handling_witness :
    mergeStep initMergeState bogusField =
      .error (.BadRequest ("Unexpected form field: " ++ bogusField.name)) :=
  unexpected_field_handling.1 initMergeState bogusField (by decide) (by decide) (by decide)
    (by decide) (by decide) (Or.inl (by decide))

/-! ### Claim C7 -/

/-- When a file field's bytes fit the cap but fail the magic check,
`ingestFile` fails at every state (with the magic-check error once the
count guards pass, a count error otherwise). -/
theorem ingestFile_error_of_bad_magic {f : MPField}
    (hsize : (f.chunks.map List.length).sum ≤ MAX_FILE_BYTES)
    (hmagic : looks_like_pdf f.chunks.flatten = false) :
    ∀ (s : MergeState) (d : String) (l : Bool), ∃ e, ingestFile s f d l = .error e := by
  intro s d l
  unfold ingestFile
  split_ifs with hc1 hc2 hc3 hc4
  any_goals exact ⟨_, rfl⟩
  all_goals
    rw [write_small f.chunks hsize] at hc4
    rw [hmagic] at hc4
    exact absurd hc4 (by decide)

/-- The magic-check failure of one accepted-by-name file field with a
passing content type, at a state with room for it. -/
theorem mergeStep_bad_magic {s : MergeState} {f : MPField}
    (hname : dropFilePre f.name ≠ none ∨ f.name = "files")
    (hct : ¬ (fieldCT f ≠ "" ∧ fieldCT f ≠ "application/pdf"))
    (hsize : (f.chunks.map List.length).sum ≤ MAX_FILE_BYTES)
    (hmagic : looks_like_pdf f.chunks.flatten = false)
    (hl : s.legacy.length < MAX_PDFS) (hb : s.byId.length < MAX_PDFS) :
    mergeStep s f = .error (.BadRequest (fieldFName f ++ " does not look like a PDF")) := by
  have h1 : f.name ≠ "quality" := by
    rintro hq
    rcases hname with hd | hf
    · rw [hq] at hd; exact hd (by decide)
    · rw [hq] at hf; exact absurd hf (by decide)
  have h2 : f.name ≠ "linearize" := by
    rintro hq
    rcases hname with hd | hf
    · rw [hq] at hd; exact hd (by decide)
    · rw [hq] at hf; exact absurd hf (by decide)
  have h3 : f.name ≠ "layout" := by
    rintro hq
    rcases hname with hd | hf
    · rw [hq] at hd; exact hd (by decide)
    · rw [hq] at hf; exact absurd hf (by decide)
  unfold mergeStep
  rw [if_neg h1, if_neg h2, if_neg h3, if_neg hct]
  have hbody : ∀ (d : String) (l : Bool), ingestFile s f d l =
      .error (.BadRequest (fieldFName f ++ " does not look like a PDF")) := by
    intro d l
    unfold ingestFile
    rw [if_neg (fun hc => by rcases hc with ⟨hle, hge⟩; omega),
      if_neg (fun hc => by rcases hc with ⟨hge, _⟩; omega),
      if_neg (by rw [write_small f.chunks hsize]; omega),
      if_pos (by rw [write_small f.chunks hsize]; simp [hmagic])]
  cases hdp : dropFilePre f.name with
  | some rest => simp only [hdp]; exact hbody rest false
  | none =>
    simp only [hdp]
    rcases hname with hd | hf
    · exact absurd hdp hd
    · rw [if_pos hf]
      exact hbody _ true

/-- Counterexample-style always-failure: a bad-magic file field (within the
size cap, with a passing content type) makes the step fail at every state. -/
theorem mergeStep_error_of_bad_magic {f : MPField}
    (hname : dropFilePre f.name ≠ none ∨ f.name = "files")
    (hct : ¬ (fieldCT f ≠ "" ∧ fieldCT f ≠ "application/pdf"))
    (hsize : (f.chunks.map List.length).sum ≤ MAX_FILE_BYTES)
    (hmagic : looks_like_pdf f.chunks.flatten = false) :
    ∀ s, ∃ e, mergeStep s f = .error e := by
  intro s
  have h1 : f.name ≠ "quality" := by
    rintro hq
    rcases hname with hd | hf
    · rw [hq] at hd; exact hd (by decide)
    · rw [hq] at hf; exact absurd hf (by decide)
  have h2 : f.name ≠ "linearize" := by
    rintro hq
    rcases hname with hd | hf
    · rw [hq] at hd; exact hd (by decide)
    · rw [hq] at hf; exact absurd hf (by decide)
  have h3 : f.name ≠ "layout" := by
    rintro hq
    rcases hname with hd | hf
    · rw [hq] at hd; exact hd (by decide)
    · rw [hq] at hf; exact absurd hf (by decide)
  unfold mergeStep
  rw [if_neg h1, if_neg h2, if_neg h3, if_neg hct]
  cases hdp : dropFilePre f.name with
  | some rest =>
    simp only [hdp]
    exact ingestFile_error_of_bad_magic hsize hmagic s rest false
  | none =>
    simp only [hdp]
    rcases hname with hd | hf
    · exact absurd hdp hd
    · rw [if_pos hf]
      exact ingestFile_error_of_bad_magic hsize hmagic s _ true

/-- Claim C7: an uploaded file (legacy `files` or id-keyed `file_<id>`)
whose bytes do not start with the literal `%PDF-` (including bodies shorter
than 5 bytes) is rejected with the `does not look like a PDF` client error
even when its declared content type is the PDF media type: the magic check
is authoritative and independent of the declared content type; and any merge
request containing such a field fails with a client error. -/
theorem magic_check_authoritative :
    (∀ (s : MergeState) (f : MPField),
      (dropFilePre f.name ≠ none ∨ f.name = "files") →
      fieldCT f = "application/pdf" →
      (f.chunks.map List.length).sum ≤ MAX_FILE_BYTES →
      looks_like_pdf f.chunks.flatten = false →
      s.legacy.length < MAX_PDFS → s.byId.length < MAX_PDFS →
      mergeStep s f = .error (.BadRequest (fieldFName f ++ " does not look like a PDF"))) ∧
    (∀ (pre post : List MPField) (f : MPField),
      (dropFilePre f.name ≠ none ∨ f.name = "files") →
      fieldCT f = "application/pdf" →
      (f.chunks.map List.length).sum ≤ MAX_FILE_BYTES →
      looks_like_pdf f.chunks.flatten = false →
      ∃ m, mergeLoop (pre ++ f :: post) initMergeState = .error (.BadRequest m)) := by
  constructor
  · intro s f hname hct hsize hmagic hl hb
    exact mergeStep_bad_magic hname (by rw [hct]; simp) hsize hmagic hl hb
  · intro pre post f hname hct hsize hmagic
    exact mergeLoop_stuck_badrequest pre f post initMergeState
      (mergeStep_error_of_bad_magic hname (by rw [hct]; simp) hsize hmagic)

/-- Witness for claim C7 at a concrete input: a 5-byte non-PDF body declared
as `application/pdf` is rejected by the magic check. -/
theorem magic_check_authoritative_witness :
    mergeStep initMergeState badMagicField =
      .error (.BadRequest (fieldFName badMagicField ++ " does not look like a PDF")) :=
  magic_check_authoritative.1 initMergeState badMagicField (Or.inr (by decide)) (by decide)
    (by decide) (by decide) (by decide) (by decide)

/-! ### Claim C10 -/

theorem fileField_name_facts {f : MPField}
    (hname : dropFilePre f.name ≠ none ∨ f.name = "files") :
    f.name ≠ "quality" ∧ f.name ≠ "linearize" ∧ f.name ≠ "layout" := by
  refine ⟨?_, ?_, ?_⟩ <;>
    · rintro hq
      rcases hname with hd | hf
      · rw [hq] at hd; exact hd (by decide)
      · rw [hq] at hf; exact absurd hf (by decide)

/-- Claim C10: the bytes written to a field's scratch file never exceed the
30 MiB cap; once the running count crosses the cap, the crossing chunk and
every later chunk are discarded while the over-cap running count (including
the crossing chunk, saturated at `usize::MAX`) is returned without error;
and the merge handler converts an over-cap count into the `too large`
client error. -/
theorem upload_size_cap :
    (∀ chunks : List (List Nat),
      ((write_multipart_field_to_file chunks).1).length ≤ MAX_FILE_BYTES) ∧
    (∀ (pre : List (List Nat)) (c : List Nat) (post : List (List Nat)),
      (pre.map List.length).sum ≤ MAX_FILE_BYTES →
      MAX_FILE_BYTES < min ((pre.map List.length).sum + c.length) USIZE_MAX →
      write_multipart_field_to_file (pre ++ c :: post) =
        (pre.flatten, min ((pre.map List.length).sum + c.length) USIZE_MAX)) ∧
    (∀ (s : MergeState) (f : MPField),
      (dropFilePre f.name ≠ none ∨ f.name = "files") →
      ¬ (fieldCT f ≠ "" ∧ fieldCT f ≠ "application/pdf") →
      s.legacy.length < MAX_PDFS → s.byId.length < MAX_PDFS →
      MAX_FILE_BYTES < (write_multipart_field_to_file f.chunks).2 →
      mergeStep s f = .error (.BadRequest (fieldFName f ++ " is too large (max " ++
        toString (MAX_FILE_BYTES / 1024 / 1024) ++ " MB)"))) := by
  refine ⟨?_, ?_, ?_⟩
  · intro chunks
    exact writeFieldGo_capped chunks [] 0 rfl (by omega)
  · intro pre c post hle hover
    have := writeFieldGo_over pre c post [] 0 (by omega) (by simpa using hover)
    simpa using this
  · intro s f hname hct hl hb hover
    obtain ⟨h1, h2, h3⟩ := fileField_name_facts hname
    unfold mergeStep
    rw [if_neg h1, if_neg h2, if_neg h3, if_neg hct]
    have hbody : ∀ (d : String) (l : Bool), ingestFile s f d l =
        .error (.BadRequest (fieldFName f ++ " is too large (max " ++
          toString (MAX_FILE_BYTES / 1024 / 1024) ++ " MB)")) := by
      intro d l
      unfold ingestFile
      rw [if_neg (fun hc => by rcases hc with ⟨_, hge⟩; omega),
        if_neg (fun hc => by rcases hc with ⟨hge, _⟩; omega),
        if_pos hover]
    cases hdp : dropFilePre f.name with
    | some rest => simp only [hdp]; exact hbody rest false
    | none =>
      simp only [hdp]
      rcases hname with hd | hf
      · exact absurd hdp hd
      · rw [if_pos hf]
        exact hbody _ true

/-- Witness for claim C10 at a concrete input: a single chunk one byte over
the cap is not written (the scratch file stays empty) and the over-cap
count is returned without error. -/
theorem upload_size_cap_witness :
    write_multipart_field_to_file ([] ++ List.replicate (MAX_FILE_BYTES + 1) 37 :: []) =
      (([] : List (List Nat)).flatten,
        min ((([] : List (List Nat)).map List.length).sum +
          (List.replicate (MAX_FILE_BYTES + 1) 37).length) USIZE_MAX) := by
  have hlen : (List.replicate (MAX_FILE_BYTES + 1) 37).length = MAX_FILE_BYTES + 1 :=
    List.length_replicate _ _
  have hover : MAX_FILE_BYTES <
      min ((([] : List (List Nat)).map List.length).sum +
        (List.replicate (MAX_FILE_BYTES + 1) 37).length) USIZE_MAX := by
    rw [hlen]
    have := max_file_bytes_lt_usize
    simp only [List.map_nil, List.sum_nil]
    omega
  exact upload_size_cap.2.1 [] (List.replicate (MAX_FILE_BYTES + 1) 37) []
    (by simp) hover

/-! ### Claim C3 -/

/-- Claim C3: whenever the merge field loop completes with a quality value
outside [10, 100] (the value parsed, or the check could not be reached), the
pipeline answers with a BadRequest error and its subprocess trace is empty —
no page counting, assembly, recompression or linearization ran. -/
theorem quality_range_rejected_before_subprocess :
    ∀ (O : Oracle) (fields : List MPField) (s : MergeState),
      mergeLoop fields initMergeState = .ok s →
      ¬ (10 ≤ s.quality ∧ s.quality ≤ 100) →
      ∃ m, mergePipeline O fields = (.error (.BadRequest m), []) := by
  intro O fields s h hq
  unfold mergePipeline
  simp only [h]
  by_cases he : s.legacy = [] ∧ s.byId = []
  · rw [if_pos he]; exact ⟨_, rfl⟩
  · rw [if_neg he, if_pos hq]; exact ⟨_, rfl⟩

/-- Witness for claim C3 at a concrete input: quality 5 with one valid file
is rejected with an empty subprocess trace. -/
theorem quality_range_rejected_witness :
    ∃ m, mergePipeline trivOracle [qualityField "5", okFilesField] =
      (.error (.BadRequest m), []) :=
  quality_range_rejected_before_subprocess trivOracle [qualityField "5", okFilesField]
    { quality := 5, legacy := [pdfMagic] } (by decide) (by decide)

/-! ### Claim C6 -/

/-- A page reference is valid for a page-count table when its document is
present and its page lies in `[1, page count]`. -/
def validRef (pbd : List (String × Nat)) (r : MergePageRef) : Prop :=
  ∃ mx, pbd.lookup r.doc = some mx ∧ 1 ≤ r.page ∧ r.page ≤ mx

instance (pbd : List (String × Nat)) (r : MergePageRef) : Decidable (validRef pbd r) := by
  unfold validRef
  cases pbd.lookup r.doc with
  | none => exact isFalse (fun ⟨mx, hmx, _⟩ => by cases hmx)
  | some mx =>
    by_cases h : 1 ≤ r.page ∧ r.page ≤ mx
    · exact isTrue ⟨mx, rfl, h⟩
    · exact isFalse (fun ⟨mx', hmx', h1, h2⟩ => by injection hmx' with hmx'; subst hmx'; omega)

theorem validateLayout_ok_iff : ∀ (pbd : List (String × Nat)) (layout : List MergePageRef),
    validateLayout pbd layout = .ok () ↔ ∀ r ∈ layout, validRef pbd r := by
  intro pbd layout
  induction layout with
  | nil => simp [validateLayout]
  | cons r rest ih =>
    unfold validateLayout
    cases hl : pbd.lookup r.doc with
    | none =>
      dsimp only
      constructor
      · intro h; exact errNeOk h
      · intro h
        obtain ⟨mx, hmx, _⟩ := h r (by simp)
        rw [hl] at hmx; cases hmx
    | some mx =>
      dsimp only
      by_cases hp : r.page = 0 ∨ mx < r.page
      · rw [if_pos hp]
        constructor
        · intro h; exact errNeOk h
        · intro h
          obtain ⟨mx', hmx', h1, h2⟩ := h r (by simp)
          rw [hl] at hmx'
          injection hmx' with hmx'
          subst hmx'
          rcases hp with hp | hp <;> omega
      · rw [if_neg hp]
        rw [ih]
        constructor
        · intro h r' hr'
          rcases List.mem_cons.mp hr' with rfl | hr'
          · exact ⟨mx, hl, by omega, by omega⟩
          · exact h r' hr'
        · intro h r' hr'
          exact h r' (List.mem_cons_of_mem _ hr')

/-- Validation passes over a prefix of valid references. -/
theorem validateLayout_skip_valid : ∀ (pbd : List (String × Nat)) (pre tail : List MergePageRef),
    (∀ r ∈ pre, validRef pbd r) →
    validateLayout pbd (pre ++ tail) = validateLayout pbd tail := by
  intro pbd pre
  induction pre with
  | nil => intro tail _; rfl
  | cons p pre ih =>
    intro tail hvalid
    obtain ⟨mx, hmx, h1, h2⟩ := hvalid p (by simp)
    simp only [List.cons_append]
    conv_lhs => unfold validateLayout
    rw [hmx]
    dsimp only
    rw [if_neg (by omega)]
    exact ih tail (fun r hr => hvalid r (List.mem_cons_of_mem _ hr))

/-- On every error return of the pipeline, the assembly tool has not run:
validation failures (and everything earlier) happen before assembly. -/
theorem mergePipeline_error_no_assemble : ∀ (O : Oracle) (fields : List MPField)
    (e : AppError) (tr : List Subproc),
    mergePipeline O fields = (.error e, tr) → Subproc.qpdfAssemble ∉ tr := by
  intro O fields e tr h
  unfold mergePipeline at h
  cases hm : mergeLoop fields initMergeState with
  | error e' =>
    rw [hm] at h
    dsimp only at h
    injection h with ha hb
    rw [← hb]
    simp
  | ok s =>
    rw [hm] at h
    dsimp only at h
    by_cases h1 : s.legacy = [] ∧ s.byId = []
    · rw [if_pos h1] at h
      injection h with ha hb
      rw [← hb]
      simp
    · rw [if_neg h1] at h
      by_cases h2 : ¬ (10 ≤ s.quality ∧ s.quality ≤ 100)
      · rw [if_pos h2] at h
        injection h with ha hb
        rw [← hb]
        simp
      · rw [if_neg h2] at h
        cases hj : s.layoutJson with
        | none =>
          rw [hj] at h
          dsimp only at h
          split_ifs at h
          all_goals (injection h with ha hb; exact okNeErr ha)
        | some lj =>
          rw [hj] at h
          dsimp only at h
          cases hp : O.parseLayout lj with
          | none =>
            rw [hp] at h
            injection h with ha hb
            rw [← hb]
            simp
          | some layout =>
            rw [hp] at h
            dsimp only at h
            by_cases h3 : layout = []
            · rw [if_pos h3] at h
              injection h with ha hb
              rw [← hb]
              simp
            · rw [if_neg h3] at h
              by_cases h4 : s.byId = []
              · rw [if_pos h4] at h
                injection h with ha hb
                rw [← hb]
                simp
              · rw [if_neg h4] at h
                cases hv : validateLayout (s.byId.map (fun p => (p.1, O.npages p.2))) layout with
                | error e' =>
                  rw [hv] at h
                  dsimp only at h
                  injection h with ha hb
                  rw [← hb]
                  intro hmem
                  obtain ⟨p, _, hp2⟩ := List.mem_map.mp hmem
                  cases hp2
                | ok u =>
                  cases u
                  rw [hv] at h
                  dsimp only at h
                  split_ifs at h
                  all_goals (injection h with ha hb; exact okNeErr ha)

/-- Claim C6: layout validation is sound and complete for every supplied
plan — it succeeds exactly when every reference names an uploaded document
and a page in `[1, page count]`; the first reference with an unknown
document id fails with the error naming that id, the first reference with
page 0 or a page above the document's count fails with the error naming the
reference and the correct maximum; and no failing request ever reaches the
assembly tool. -/
theorem layout_validation :
    (∀ (pbd : List (String × Nat)) (layout : List MergePageRef),
      validateLayout pbd layout = .ok () ↔ ∀ r ∈ layout, validRef pbd r) ∧
    (∀ (pbd : List (String × Nat)) (pre : List MergePageRef) (r : MergePageRef)
      (rest : List MergePageRef), (∀ r' ∈ pre, validRef pbd r') →
      pbd.lookup r.doc = none →
      validateLayout pbd (pre ++ r :: rest) =
        .error (.BadRequest ("Layout references unknown doc id: " ++ r.doc))) ∧
    (∀ (pbd : List (String × Nat)) (pre : List MergePageRef) (r : MergePageRef)
      (rest : List MergePageRef) (mx : Nat), (∀ r' ∈ pre, validRef pbd r') →
      pbd.lookup r.doc = some mx → (r.page = 0 ∨ mx < r.page) →
      validateLayout pbd (pre ++ r :: rest) =
        .error (.BadRequest ("Invalid page " ++ toString r.page ++ " for doc " ++ r.doc ++
          " (max " ++ toString mx ++ ")"))) ∧
    (∀ (O : Oracle) (fields : List MPField) (e : AppError) (tr : List Subproc),
      mergePipeline O fields = (.error e, tr) → Subproc.qpdfAssemble ∉ tr) := by
  refine ⟨validateLayout_ok_iff, ?_, ?_, mergePipeline_error_no_assemble⟩
  · intro pbd pre r rest hvalid hl
    rw [validateLayout_skip_valid pbd pre (r :: rest) hvalid]
    unfold validateLayout
    rw [hl]
  · intro pbd pre r rest mx hvalid hl hp
    rw [validateLayout_skip_valid pbd pre (r :: rest) hvalid]
    unfold validateLayout
    rw [hl]
    dsimp only
    rw [if_pos hp]

/-- Witness for claim C6 at a concrete input: referencing page 3 of a
2-page document `a` fails naming the reference and the maximum. -/
theorem layout_validation_witness :
    validateLayout [("a", 2)] [⟨"a", 3⟩] =
      .error (.BadRequest ("Invalid page " ++ toString 3 ++ " for doc " ++ "a" ++
        " (max " ++ toString 2 ++ ")")) :=
  layout_validation.2.2.1 [("a", 2)] [] ⟨"a", 3⟩ [] 2 (by simp) (by decide) (by decide)

/-! ### Claim C2 -/

theorem splitDot_no_dot : ∀ (xs : List Char), (∀ c ∈ xs, c ≠ '.') → splitDot xs = [xs] := by
  intro xs
  induction xs with
  | nil => intro _; rfl
  | cons c cs ih =>
    intro h
    conv_lhs => unfold splitDot
    rw [if_neg (h c (by simp))]
    rw [ih (fun c' hc' => h c' (List.mem_cons_of_mem _ hc'))]

theorem splitDot_append : ∀ (xs rest : List Char), (∀ c ∈ xs, c ≠ '.') →
    splitDot (xs ++ '.' :: rest) = xs :: splitDot rest := by
  intro xs
  induction xs with
  | nil =>
    intro rest _
    simp only [List.nil_append]
    conv_lhs => unfold splitDot
    rw [if_pos rfl]
  | cons c cs ih =>
    intro rest h
    simp only [List.cons_append]
    conv_lhs => unfold splitDot
    rw [if_neg (h c (by simp))]
    rw [ih rest (fun c' hc' => h c' (List.mem_cons_of_mem _ hc'))]

/-- Claim C2: for every username and issue time, verifying a freshly issued
token at issue time returns that username; the same token verified at
`now + TTL + 1` — indeed at any time `t ≥ now + TTL`, the expiry instant
included, with no grace window — is invalid.  The serde_json, base64url and
HMAC primitives are assumed only to satisfy their crates' round-trip
contracts at the values involved, and base64url output to contain no `.`. -/
theorem session_issue_verify_roundtrip
    (P : SigPrims) (key : List Nat) (ttl : Int) (u : String) (now : Int)
    (httl : 0 < ttl)
    (hpdot : ∀ c ∈ P.b64enc (P.jsonEnc (u, now + ttl)), c ≠ '.')
    (hsdot : ∀ c ∈ P.b64enc (P.hmacTag key (P.b64enc (P.jsonEnc (u, now + ttl)))), c ≠ '.')
    (hsig : P.b64dec (P.b64enc (P.hmacTag key (P.b64enc (P.jsonEnc (u, now + ttl))))) =
      some (P.hmacTag key (P.b64enc (P.jsonEnc (u, now + ttl)))))
    (hpay : P.b64dec (P.b64enc (P.jsonEnc (u, now + ttl))) = some (P.jsonEnc (u, now + ttl)))
    (hjson : P.jsonDec (P.jsonEnc (u, now + ttl)) = some (u, now + ttl)) :
    (SessionSigner.verify P key (SessionSigner.issue P key ttl u now) now).map Prod.fst =
      some u ∧
    SessionSigner.verify P key (SessionSigner.issue P key ttl u now) (now + ttl + 1) = none ∧
    ∀ t, now + ttl ≤ t →
      SessionSigner.verify P key (SessionSigner.issue P key ttl u now) t = none := by
  have hsplit : splitDot (SessionSigner.issue P key ttl u now) =
      ["v1".toList, P.b64enc (P.jsonEnc (u, now + ttl)),
        P.b64enc (P.hmacTag key (P.b64enc (P.jsonEnc (u, now + ttl))))] := by
    unfold SessionSigner.issue
    have hshape : ("v1.".toList : List Char) ++ P.b64enc (P.jsonEnc (u, now + ttl)) ++
        '.' :: P.b64enc (P.hmacTag key (P.b64enc (P.jsonEnc (u, now + ttl)))) =
        (['v', '1'] : List Char) ++ '.' :: (P.b64enc (P.jsonEnc (u, now + ttl)) ++
          '.' :: P.b64enc (P.hmacTag key (P.b64enc (P.jsonEnc (u, now + ttl))))) := rfl
    rw [hshape]
    rw [splitDot_append ['v', '1'] _ (by decide)]
    rw [splitDot_append _ _ hpdot]
    rw [splitDot_no_dot _ hsdot]
    rfl
  have hverify : ∀ t, SessionSigner.verify P key (SessionSigner.issue P key ttl u now) t =
      if now + ttl ≤ t then none else some (u, now + ttl) := by
    intro t
    unfold SessionSigner.verify
    rw [hsplit]
    dsimp only
    rw [if_pos rfl, hsig]
    dsimp only
    rw [if_pos rfl, hpay]
    dsimp only
    rw [hjson]
  refine ⟨?_, ?_, ?_⟩
  · rw [hverify now, if_neg (by omega)]
    rfl
  · rw [hverify (now + ttl + 1), if_pos (by omega)]
  · intro t ht
    rw [hverify t, if_pos ht]

/-- Witness for claim C2 at a concrete input. -/
theorem session_issue_verify_roundtrip_witness :
    (SessionSigner.verify trivPrims [] (SessionSigner.issue trivPrims [] 86400 "admin" 0)
      0).map Prod.fst = some "admin" ∧
    SessionSigner.verify trivPrims [] (SessionSigner.issue trivPrims [] 86400 "admin" 0)
      (0 + 86400 + 1) = none :=
  ⟨(session_issue_verify_roundtrip trivPrims [] 86400 "admin" 0 (by decide) (by decide)
      (by decide) (by decide) (by decide) (by decide)).1,
    (session_issue_verify_roundtrip trivPrims [] 86400 "admin" 0 (by decide) (by decide)
      (by decide) (by decide) (by decide) (by decide)).2.1⟩

/-! ### Claim C4 -/

theorem utf8Len_cons (c : Char) (s : List Char) :
    utf8Len (c :: s) = c.utf8Size + utf8Len s := by
  simp [utf8Len]

theorem utf8Len_append (a b : List Char) : utf8Len (a ++ b) = utf8Len a + utf8Len b := by
  simp [utf8Len]

/-- The kept characters are an initial segment of the input. -/
theorem truncKeep_front : ∀ (s : List Char) (off : Nat), ∃ q, truncKeep off s ++ q = s := by
  intro s
  induction s with
  | nil => intro off; exact ⟨[], rfl⟩
  | cons c cs ih =>
    intro off
    unfold truncKeep
    split
    · obtain ⟨q, hq⟩ := ih (off + c.utf8Size)
      exact ⟨q, by simp [hq]⟩
    · exact ⟨c :: cs, rfl⟩

/-- The kept characters never push the byte count past 512. -/
theorem truncKeep_utf8Len : ∀ (s : List Char) (off : Nat), off ≤ 512 →
    utf8Len (truncKeep off s) + off ≤ 512 := by
  intro s
  induction s with
  | nil => intro off h; simpa [truncKeep, utf8Len] using h
  | cons c cs ih =>
    intro off h
    unfold truncKeep
    split
    · next hcond =>
      have := ih (off + c.utf8Size) hcond.2
      rw [utf8Len_cons]
      omega
    · simpa [utf8Len] using h

/-- Counterexample to claim C4 as stated: with a 600-byte stderr, the
non-zero-exit error message of qpdf contains the full 600-byte stderr
(total 613 bytes, beyond the 512-byte truncation bound) and differs from
the message that truncation would have produced. -/
theorem subprocess_stderr_untruncated_counterexample :
    utf8Len (qpdfFailMsg (List.replicate 600 'a')) = 613 ∧
    qpdfFailMsg (List.replicate 600 'a') ≠
      "qpdf failed: ".toList ++ truncate_for_log (List.replicate 600 'a') := by
  constructor
  · decide
  · decide

/-- Claim C4 (amended): on a non-zero tool exit the error message carries
the tool name and the complete, untruncated stderr; `truncate_for_log`
(which bounds a string to 512 UTF-8 bytes plus an ellipsis, cutting only at
a character boundary) is applied not there but only in the page-count
output-parse failure message, which is therefore bounded. -/
theorem subprocess_error_messages :
    (∀ st : List Char, qpdfFailMsg st = "qpdf failed: ".toList ++ st ∧
      gsFailMsg st = "ghostscript failed: ".toList ++ st) ∧
    (∀ s : List Char, utf8Len (truncate_for_log s) ≤ 515 ∧
      (utf8Len s ≤ 512 → truncate_for_log s = s) ∧
      (512 < utf8Len s → ∃ q, truncKeep 0 s ++ q = s ∧
        truncate_for_log s = truncKeep 0 s ++ ['…'] ∧ utf8Len (truncKeep 0 s) ≤ 512)) ∧
    (∀ o e : List Char, utf8Len (qpdfParseFailMsg o e) ≤ 1076) := by
  have hbound : ∀ s : List Char, utf8Len (truncate_for_log s) ≤ 515 := by
    intro s
    unfold truncate_for_log
    by_cases h : utf8Len s ≤ 512
    · rw [if_pos h]; omega
    · rw [if_neg h]
      rw [utf8Len_append]
      have := truncKeep_utf8Len s 0 (by omega)
      have hdots : utf8Len ['…'] = 3 := by decide
      omega
  refine ⟨fun st => ⟨rfl, rfl⟩, ?_, ?_⟩
  · intro s
    refine ⟨hbound s, ?_, ?_⟩
    · intro h
      unfold truncate_for_log
      rw [if_pos h]
    · intro h
      obtain ⟨q, hq⟩ := truncKeep_front s 0
      refine ⟨q, hq, ?_, ?_⟩
      · unfold truncate_for_log
        rw [if_neg (by omega)]
      · have := truncKeep_utf8Len s 0 (by omega)
        omega
  · intro o e
    unfold qpdfParseFailMsg
    rw [utf8Len_append, utf8Len_append, utf8Len_append, utf8Len_append]
    have h1 : utf8Len "Failed to parse qpdf output (stdout=".toList = 36 := by decide
    have h2 : utf8Len ", stderr=".toList = 9 := by decide
    have h3 : utf8Len [')'] = 1 := by decide
    have := hbound o
    have := hbound e
    omega

/-- Witness for the amended claim C4 at a concrete input: the 600-byte
stderr is truncated to its 512-byte initial segment plus an ellipsis when
`truncate_for_log` is applied. -/
theorem subprocess_error_messages_witness :
    utf8Len (truncate_for_log (List.replicate 600 'a')) ≤ 515 ∧
    (∃ q, truncKeep 0 (List.replicate 600 'a') ++ q = List.replicate 600 'a' ∧
      truncate_for_log (List.replicate 600 'a') =
        truncKeep 0 (List.replicate 600 'a') ++ ['…'] ∧
      utf8Len (truncKeep 0 (List.replicate 600 'a')) ≤ 512) :=
  ⟨(subprocess_error_messages.2.1 (List.replicate 600 'a')).1,
    (subprocess_error_messages.2.1 (List.replicate 600 'a')).2.2 (by decide)⟩

end PdfTools

